import Mathlib

/-!
# Verification of the go-sup supervision runtime

A shallow embedding of the go-sup structured-concurrency library:
the panic/error classification (`siftError`), the single-assignment
promise, task-name selection, context path propagation, the fork-join
engine's run loop, the consolidated supervisor's phase machine, and the
stream engine's admission/collection loops.  Concurrency is modelled by
making the arrival order of messages on the supervisor's report channel
an explicit input (a list of reports in arrival order).
-/

namespace Sup

/-- Go `error` values as they flow through go-sup: either a plain
error (identified by its message) or an `*ErrChild` wrapper, which
carries the wrapped error and the `WasPanic` flag
(src/unnamed/part_010, `ErrChild`). -/
inductive GoErr where
  | basic (msg : String)
  | child (err : GoErr) (wasPanic : Bool)
deriving DecidableEq, Repr

/-- A value recovered from `recover()`: in Go it is an `interface{}`
that either satisfies the `error` interface or does not
(src/unnamed/part_010, `siftError`'s `rcvr` parameter). -/
inductive PanicVal where
  | errVal (e : GoErr)
  | nonErrVal (desc : String)
deriving DecidableEq, Repr

/-- `fmt.Errorf("%v", rcvr)` for a non-error panic value: a fresh basic
error whose message is the formatted value. -/
def fmtErrorfV (desc : String) : GoErr := .basic desc

/-- `siftError` from src/unnamed/part_010 lines 54-68: classifies a
worker outcome (returned error, recovered panic value) into an
`Option GoErr` that is either `none` or an `ErrChild` wrapper.
`none` models Go `nil`. -/
def siftError (retErr : Option GoErr) (rcvr : Option PanicVal) : Option GoErr :=
  match rcvr with
  | some (.errVal e) => some (.child e true)
  | some (.nonErrVal desc) => some (.child (fmtErrorfV desc) true)
  | none =>
    match retErr with
    | none => none
    | some e =>
      match e with
      | .child e2 p => some (.child e2 p)
      | .basic msg => some (.child (.basic msg) false)

/-- Does an optional error carry a `WasPanic = true` flag at top level? -/
def isPanicFlagged : Option GoErr → Bool
  | some (.child _ true) => true
  | _ => false

/-- Is this error an `*ErrChild`?  (Go type assertion `retErr.(*ErrChild)`.) -/
def isErrChild : GoErr → Bool
  | .child _ _ => true
  | .basic _ => false

/-! ## Promise (src/promise.go)

The promise's observable state is its `ctrl` word (1 = wait,
2 = mid-resolve, 0 = done) and the value slot.  `resolve` is the only
state-changing operation; a failed CAS leaves the state unchanged and
panics (modelled as `Except.error`). -/

/-- The mutable state of a `promise[V]` (src/promise.go): the `ctrl`
control word and the value slot.  `ctrl`: 1=wait; 2=mid-resolve; 0=done. -/
structure PromiseState (V : Type) where
  ctrl : Nat
  value : Option V
deriving Repr

/-- `NewPromise` (src/promise.go line 68-71): fresh state with `ctrl = 1`. -/
def newPromiseState (V : Type) : PromiseState V := { ctrl := 1, value := none }

/-- `promise.resolve` (src/promise.go lines 88-131), restricted to its
state effect: CAS `ctrl` 1→2 (panic on failure), write the value, CAS
2→0.  The notification phase does not change `ctrl` or the value.
A panic is modelled as `Except.error` carrying the panic message, and
the Go panic leaves the state untouched (the CAS failed). -/
def promiseResolve {V : Type} (v : V) (s : PromiseState V) :
    Except String (PromiseState V) :=
  if s.ctrl = 1 then
    .ok { ctrl := 0, value := some v }
  else
    .error "promise is already resolved, cannot resolve again"

/-- `promise.IsResolved` (src/promise.go lines 146-148): `ctrl == 0`. -/
def promiseIsResolved {V : Type} (s : PromiseState V) : Bool :=
  s.ctrl = 0

/-- Apply a sequence of `resolve` attempts; a panicking attempt leaves
the state unchanged (the CAS failed before any write). -/
def applyResolves {V : Type} : List V → PromiseState V → PromiseState V
  | [], s => s
  | v :: vs, s =>
    match promiseResolve v s with
    | .ok s' => applyResolves vs s'
    | .error _ => applyResolves vs s

/-! ## Name selection (src/unnamed/part_013, src/unnamed/part_001) -/

/-- `NameSelectionStrategy.Default` (src/unnamed/part_013 lines 5-15):
first attempt proposes the requested name unmodified; after a collision
it appends the literal `"+1"` to the previous attempt. -/
def nameSelectionStrategyDefault (requested attempted : String) (attempts : Nat) : String :=
  if attempts > 0 then attempted ++ "+1" else requested

/-- The loop body of `supervisor._submit_selectName`
(src/unnamed/part_001 lines 337-350), with the supervisor's
`knownTasks` keys as a list of names.  `attempts` is `nameAttempts`;
the recursion mirrors the `for` loop: propose, return if free,
increment, panic (modelled as `Except.error`) once the counter
exceeds 100. -/
def selectNameFrom (nss : String → String → Nat → String) (known : List String)
    (requested : String) : String → Nat → Except String String
  | attempted, attempts =>
    let actualName := nss requested attempted attempts
    if known.contains actualName then
      if attempts + 1 > 100 then
        .error "your name selection strategy is broken"
      else
        selectNameFrom nss known requested actualName (attempts + 1)
    else
      .ok actualName
termination_by attempted attempts => 101 - attempts
decreasing_by
  simp_wf
  omega

/-- `supervisor._submit_selectName` (src/unnamed/part_001 lines
337-350): the loop starting at `actualName := requested`,
`nameAttempts := 0`. -/
def selectName (nss : String → String → Nat → String) (known : List String)
    (requested : String) : Except String String :=
  selectNameFrom nss known requested requested 0

/-! ## Context path propagation (src/context.go, src/engineShared.go) -/

/-- The single context attachment used by the engine code
(src/context.go, `ctxInfo`): the owning task's short name and the
slash-joined supervision path. -/
structure CtxInfo where
  taskName : String
  path : String
deriving DecidableEq, Repr

/-- A context, as far as go-sup consults it: the innermost `ctxInfo`
attachment, if any (src/context.go). -/
structure CtxModel where
  info : Option CtxInfo
deriving DecidableEq, Repr

/-- `appendCtxInfo` (src/context.go): attach a new `ctxInfo`, shadowing
any earlier one. -/
def appendCtxInfo (_ctx : CtxModel) (x : CtxInfo) : CtxModel :=
  { info := some x }

/-- `CtxTaskPath` (src/context.go): the attached path, or `""` if the
context carries no attachment. -/
def ctxTaskPath (ctx : CtxModel) : String :=
  match ctx.info with
  | none => ""
  | some i => i.path

/-- `CtxTaskName` (src/context.go): the attached short task name, or
`""`. -/
def ctxTaskName (ctx : CtxModel) : String :=
  match ctx.info with
  | none => ""
  | some i => i.taskName

/-- `filepath.Join(a, b)` as used on go-sup's clean, slash-free,
non-empty task names: joins with `"/"`, and an empty left operand
yields the right operand alone. -/
def pathJoin (a b : String) : String :=
  if a = "" then b else a ++ "/" ++ b

/-- The context-extension performed by `childLaunch`
(src/engineShared.go lines 28-37): compute the task path by joining the
group context's path with the task's short name, and attach the new
`ctxInfo` before running the task. -/
def childLaunchCtx (groupCtx : CtxModel) (taskName : String) : CtxModel :=
  appendCtxInfo groupCtx { taskName := taskName, path := pathJoin (ctxTaskPath groupCtx) taskName }

/-! ## Fork-join engine (src/engineForkJoin.go)

Tasks are identified by their `*boundTask` pointer, modelled as a `Nat`
id.  The messages on `reportCh`, in arrival order, are an explicit
input.  The model assumes the parent context is never cancelled (the
`parentCtx.Done()` select arm never fires), which is the scenario of
the claims about this engine. -/

/-- `reportMsg` (src/engineShared.go lines 21-24): a task id and its
result. -/
structure ReportMsg where
  task : Nat
  result : Option GoErr
deriving DecidableEq, Repr

/-- The phase enum shared by the engines (src/engineShared.go lines
8-17). -/
inductive EnginePhase where
  | uninitialized
  | init
  | running
  | collecting
  | halting
  | halt
deriving DecidableEq, Repr

/-- The outcome of `superviseFJ.Run` (src/engineForkJoin.go lines
31-93): the returned error, the final `results` map (as the list of
reports recorded, in arrival order), whether `groupCancel` was invoked
before returning, and the final phase. -/
structure FJOutcome where
  result : Option GoErr
  results : List (Nat × Option GoErr)
  cancelled : Bool
  phase : EnginePhase
deriving DecidableEq, Repr

/-- The `watch` loop of `superviseFJ.Run` (src/engineForkJoin.go lines
54-71): `for range mgr.tasks` receives up to `fuel` reports; each is
deleted from `awaiting` and recorded in `results`; a non-nil result
sets `firstErr` and breaks out (phase becomes halting).  Returns
`none` when the loop needs a report that never arrives (the Go code
would block forever); otherwise the updated `awaiting`, `results`,
`firstErr`, and the unconsumed reports. -/
def fjWatch : Nat → List ReportMsg → List Nat → List (Nat × Option GoErr) →
    Option (List Nat × List (Nat × Option GoErr) × Option GoErr × List ReportMsg)
  | 0, rs, awaiting, results => some (awaiting, results, none, rs)
  | _ + 1, [], _, _ => none
  | fuel + 1, r :: rs, awaiting, results =>
    let awaiting' := awaiting.erase r.task
    let results' := results ++ [(r.task, r.result)]
    match r.result with
    | some e => some (awaiting', results', some e, rs)
    | none => fjWatch fuel rs awaiting' results'

/-- The drain loop of `superviseFJ.Run` (src/engineForkJoin.go lines
86-90): `for len(mgr.awaiting) > 0` keeps receiving reports and
recording them.  `none` models blocking forever on an exhausted report
channel. -/
def fjDrain : List ReportMsg → List Nat → List (Nat × Option GoErr) →
    Option (List (Nat × Option GoErr))
  | rs, awaiting, results =>
    if awaiting.isEmpty then some results
    else
      match rs with
      | [] => none
      | r :: rs' => fjDrain rs' (awaiting.erase r.task) (results ++ [(r.task, r.result)])

/-- `superviseFJ.Run` (src/engineForkJoin.go lines 31-93) after the
single-run check, given the tasks (by id, in launch order) and the
report arrival order: run the watch loop; if the phase is still
`collecting` (no break) return `nil` without cancelling; otherwise
invoke `groupCancel` and drain the remaining reports, returning
`firstErr`.  `none` models an execution in which Run blocks forever. -/
def fjRun (tasks : List Nat) (reports : List ReportMsg) : Option FJOutcome :=
  match fjWatch tasks.length reports tasks [] with
  | none => none
  | some (awaiting, results, firstErr, remaining) =>
    match firstErr with
    | none => some { result := none, results := results, cancelled := false, phase := .halt }
    | some e =>
      match fjDrain remaining awaiting results with
      | none => none
      | some results' =>
        some { result := some e, results := results', cancelled := true, phase := .halt }

/-- The single-run enforcement at the top of `superviseFJ.Run`
(src/engineForkJoin.go lines 33-38): panic unless the phase is still
`phase_init`; otherwise move to `phase_collecting`. -/
def fjRunStart (phase : EnginePhase) : Except String EnginePhase :=
  if phase = .init then .ok .collecting
  else .error "supervisor can only be Run() once!"

/-- The first non-nil result in a report list, in arrival order. -/
def firstNonNilResult : List ReportMsg → Option GoErr
  | [] => none
  | r :: rs =>
    match r.result with
    | some e => some e
    | none => firstNonNilResult rs

/-! ## Consolidated supervisor (src/unnamed/part_001)

The supervisor's control loop is the sole consumer of the
`childCompletion` channel; its state transitions are serialized, so the
arrival order of child completions is again an explicit input.  Live
tasks are keyed by resolved name; the `knownTasks` map is modelled as
the list of its keys (insertion order is irrelevant to the code, which
only tests membership, deletes, and checks emptiness). -/

/-- `SupervisorPhase` (src/unnamed/part_001 lines 277-284). -/
inductive SupPhase where
  | notStarted
  | running
  | windingDown
  | aborted
  | halted
deriving DecidableEq, Repr

/-- `SupervisionReaction` (src/unnamed/part_001 lines 176-181). -/
inductive Reaction where
  | error
  | ignore
  | abortRapidly
deriving DecidableEq, Repr

/-- The supervisor state consulted by its run loop
(src/unnamed/part_001, `supervisor` struct): the phase, the keys of the
live-task map, and the return-on-empty flag.  The error reactor is
passed separately as a function. -/
structure SupSt where
  phase : SupPhase
  knownTasks : List String
  returnOnEmpty : Bool
deriving DecidableEq, Repr

/-- A child completion message: the child's resolved name and the
`err` field it stored before sending itself on `childCompletion`. -/
structure ChildDone where
  name : String
  err : Option GoErr
deriving DecidableEq, Repr

/-- `supervisor._run_start` (src/unnamed/part_001 lines 407-431):
CAS the phase NotStarted→Running (panic if the phase is anything
else), then, if return-on-empty holds and no tasks are registered,
short-circuit to Halted.  Returns the updated state and the phase
value the run loop starts from. -/
def runStart (s : SupSt) : Except String (SupSt × SupPhase) :=
  if s.phase = .notStarted then
    if s.returnOnEmpty ∧ s.knownTasks.isEmpty then
      .ok ({ s with phase := .halted }, .halted)
    else
      .ok ({ s with phase := .running }, .running)
  else
    .error "supervisor can only be Run() once!"

/-- `supervisor._run_recvChild` (src/unnamed/part_001 lines 436-473):
remove the child from `knownTasks`; on a nil error, halt if
return-on-empty and the map emptied, else stay Running; on a non-nil
error apply the reactor. -/
def runRecvChild (reactor : GoErr → Reaction) (s : SupSt) (child : ChildDone) :
    SupSt × SupPhase × Option GoErr :=
  let s := { s with knownTasks := s.knownTasks.erase child.name }
  match child.err with
  | none =>
    if s.returnOnEmpty ∧ s.knownTasks.isEmpty then
      ({ s with phase := .halted }, .halted, none)
    else
      (s, .running, none)
  | some e =>
    match reactor e with
    | .error =>
      if s.knownTasks.isEmpty then
        ({ s with phase := .halted }, .halted, some e)
      else
        ({ s with phase := .windingDown }, .windingDown, some e)
    | .ignore =>
      if s.returnOnEmpty ∧ s.knownTasks.isEmpty then
        ({ s with phase := .windingDown }, .windingDown, none)
      else
        (s, .running, none)
    | .abortRapidly =>
      ({ s with phase := .aborted }, .aborted, some e)

/-- `supervisor._winddown_recvChild` (src/unnamed/part_001 lines
477-513): like `runRecvChild` but the quiet-continue phase is
WindingDown and the Ignore branch halts when the map empties. -/
def winddownRecvChild (reactor : GoErr → Reaction) (s : SupSt) (child : ChildDone) :
    SupSt × SupPhase × Option GoErr :=
  let s := { s with knownTasks := s.knownTasks.erase child.name }
  match child.err with
  | none =>
    if s.knownTasks.isEmpty then
      ({ s with phase := .halted }, .halted, none)
    else
      (s, .windingDown, none)
  | some e =>
    match reactor e with
    | .error =>
      if s.knownTasks.isEmpty then
        ({ s with phase := .halted }, .halted, some e)
      else
        (s, .windingDown, some e)
    | .ignore =>
      if s.knownTasks.isEmpty then
        ({ s with phase := .halted }, .halted, none)
      else
        (s, .windingDown, none)
    | .abortRapidly =>
      ({ s with phase := .aborted }, .aborted, some e)

/-- The `for phase == SupervisorPhase_Running` loop of
`supervisor.Run` (src/unnamed/part_001 lines 371-378): receive a child
completion and apply `_run_recvChild` until the phase leaves Running.
`err` is overwritten on every iteration, exactly as in the Go code.
`none` models blocking forever on an exhausted completion sequence. -/
def supRunLoop (reactor : GoErr → Reaction) :
    List ChildDone → SupSt → SupPhase → Option GoErr →
    Option (SupSt × SupPhase × Option GoErr × List ChildDone)
  | dones, s, phase, err =>
    if phase = .running then
      match dones with
      | [] => none
      | c :: rest =>
        let r := runRecvChild reactor s c
        supRunLoop reactor rest r.1 r.2.1 r.2.2
    else
      some (s, phase, err, dones)

/-- The `for phase == SupervisorPhase_WindingDown` loop of
`supervisor.Run` (src/unnamed/part_001 lines 394-400), collecting the
non-dominant `err2`. -/
def supWinddownLoop (reactor : GoErr → Reaction) :
    List ChildDone → SupSt → SupPhase → Option GoErr →
    Option (SupSt × SupPhase × Option GoErr × List ChildDone)
  | dones, s, phase, err2 =>
    if phase = .windingDown then
      match dones with
      | [] => none
      | c :: rest =>
        let r := winddownRecvChild reactor s c
        supWinddownLoop reactor rest r.1 r.2.1 r.2.2
    else
      some (s, phase, err2, dones)

/-- The result of a completed `supervisor.Run`: its returned error,
the final supervisor state, and whether `cancelChildren` was invoked
before returning. -/
structure SupOutcome where
  result : Option GoErr
  finalState : SupSt
  cancelled : Bool
deriving DecidableEq, Repr

/-- `supervisor.Run` (src/unnamed/part_001 lines 360-405), given the
child-completion arrival order: `_run_start`, the Running loop, the
unconditional `cancelChildren()` fan-out, the early return when
Aborted, the WindingDown loop, and the `if err == nil { err = err2 }`
merge.  `Except.error` models the double-run panic; `.ok none` models
an execution in which Run blocks forever in one of its receive
loops. -/
def supRun (reactor : GoErr → Reaction) (s0 : SupSt) (dones : List ChildDone) :
    Except String (Option SupOutcome) :=
  match runStart s0 with
  | .error msg => .error msg
  | .ok (s1, phase1) =>
    match supRunLoop reactor dones s1 phase1 none with
    | none => .ok none
    | some (s2, phase2, err, remaining) =>
      -- `s.cancelChildren()` executes here, unconditionally.
      if phase2 = .aborted then
        .ok (some { result := err, finalState := s2, cancelled := true })
      else
        match supWinddownLoop reactor remaining s2 phase2 none with
        | none => .ok none
        | some (s3, _, err2, _) =>
          .ok (some { result := if err.isNone then err2 else err,
                      finalState := s3, cancelled := true })

/-! ## Stream engine (src/unnamed/part_007)

`superviseStream.Run` steps through phase functions `_running`,
`_collecting`, `_halting`, `_halt`.  The `_running` loop selects over
the task generator, the report channel, and parent cancellation; the
interleaving chosen by the scheduler is modelled as an explicit event
list.  A `genClosed` event is the generator receive returning
`ok == false`. -/

/-- One delivery observed by the stream supervisor's select loops. -/
inductive StreamEv where
  | newTask (id : Nat)
  | genClosed
  | report (r : ReportMsg)
  | parentDone (e : GoErr)
deriving DecidableEq, Repr

/-- The stream supervisor's loop state (src/unnamed/part_007,
`superviseStream` struct): the `awaiting` set (as its key list), the
`results` map (as the recorded reports in arrival order), the
accumulated `firstErr`, plus the list of all task ids ever passed to
`go childLaunch` (for reasoning about admission). -/
structure StreamSt where
  awaiting : List Nat
  results : List (Nat × Option GoErr)
  firstErr : Option GoErr
  launched : List Nat
deriving DecidableEq, Repr

/-- The observable outcome of `superviseStream.Run`: the returned
`firstErr`, the final `results`, every task ever launched, and whether
`groupCancel` was invoked. -/
structure StreamOutcome where
  result : Option GoErr
  results : List (Nat × Option GoErr)
  launched : List Nat
  cancelled : Bool
deriving DecidableEq, Repr

/-- The drain loop inside `superviseStream._halting`
(src/unnamed/part_007 lines 116-120): a plain receive on `reportCh`
only, so non-report events are never consumed by it.  `none` models
blocking forever. -/
def streamDrain : List StreamEv → List Nat → List (Nat × Option GoErr) →
    Option (List (Nat × Option GoErr))
  | evs, awaiting, results =>
    if awaiting.isEmpty then some results
    else
      match evs with
      | [] => none
      | .report r :: rest =>
        streamDrain rest (awaiting.erase r.task) (results ++ [(r.task, r.result)])
      | .newTask _ :: rest => streamDrain rest awaiting results
      | .genClosed :: rest => streamDrain rest awaiting results
      | .parentDone _ :: rest => streamDrain rest awaiting results

/-- `superviseStream._halting` (src/unnamed/part_007 lines 109-124)
followed by `_halt`: invoke `groupCancel`, drain the remaining
reports, and return `firstErr`. -/
def streamHalting (evs : List StreamEv) (st : StreamSt) : Option StreamOutcome :=
  match streamDrain evs st.awaiting st.results with
  | none => none
  | some results' =>
    some { result := st.firstErr, results := results', launched := st.launched,
           cancelled := true }

/-- `superviseStream._collecting` (src/unnamed/part_007 lines 86-107)
followed by `_halt`: while `awaiting` is non-empty, select over the
report channel and parent cancellation.  The select has no arm for the
(closed) task generator, so `newTask`/`genClosed` events are never
consumed as admissions here. -/
def streamCollecting : List StreamEv → StreamSt → Option StreamOutcome
  | evs, st =>
    if st.awaiting.isEmpty then
      some { result := st.firstErr, results := st.results, launched := st.launched,
             cancelled := false }
    else
      match evs with
      | [] => none
      | .report r :: rest =>
        let st' := { st with awaiting := st.awaiting.erase r.task,
                             results := st.results ++ [(r.task, r.result)] }
        match r.result with
        | some e => streamHalting rest { st' with firstErr := some e }
        | none => streamCollecting rest st'
      | .parentDone e :: rest => streamHalting rest { st with firstErr := some e }
      | .newTask _ :: rest => streamCollecting rest st
      | .genClosed :: rest => streamCollecting rest st

/-- `superviseStream._running` (src/unnamed/part_007 lines 52-84):
select over a new task from the generator (bind it, register it in
`awaiting`, launch it), the generator's closure (move to
`_collecting`), a report (record it; a non-nil result sets `firstErr`
and moves to `_halting`), or parent cancellation. -/
def streamRunning : List StreamEv → StreamSt → Option StreamOutcome
  | evs, st =>
    match evs with
    | [] => none
    | .newTask id :: rest =>
      streamRunning rest { st with awaiting := st.awaiting ++ [id],
                                   launched := st.launched ++ [id] }
    | .genClosed :: rest => streamCollecting rest st
    | .report r :: rest =>
      let st' := { st with awaiting := st.awaiting.erase r.task,
                           results := st.results ++ [(r.task, r.result)] }
      match r.result with
      | some e => streamHalting rest { st' with firstErr := some e }
      | none => streamRunning rest st'
    | .parentDone e :: rest => streamHalting rest { st with firstErr := some e }

/-- `superviseStream.Run` (src/unnamed/part_007 lines 33-50) after the
single-run check: fresh `awaiting`/`results`, then the phase-function
loop starting at `_running`.  `none` models an execution in which Run
blocks forever. -/
def streamRun (evs : List StreamEv) : Option StreamOutcome :=
  streamRunning evs { awaiting := [], results := [], firstErr := none, launched := [] }

/-- The first non-nil child error in a completion arrival order
(src/unnamed/part_001, the `err` field of the children arriving on
`childCompletion`). -/
def firstNonNilChildErr : List ChildDone → Option GoErr
  | [] => none
  | c :: cs =>
    match c.err with
    | some e => some e
    | none => firstNonNilChildErr cs

/-! ## Naming attached by the consolidated supervisor's Submit
(src/unnamed/part_001) -/

/-- The fully-qualified name computed by `supervisor.Submit`
(src/unnamed/part_001 line 301): `st.nameFQ = s.nameFQ + "." + name` —
a dot join of the supervisor's own fully-qualified name with the
resolved short name. -/
def submitNameFQ (supNameFQ name : String) : String :=
  supNameFQ ++ "." ++ name

/-- The name fields of the `CtxAttachments` bundle that
`supervisor.Submit` (src/unnamed/part_001 lines 312-317) attaches to
the child's context: the short name and the dot-joined fully-qualified
name. -/
structure CtxAttachmentsModel where
  taskNameShort : String
  taskNameFull : String
deriving DecidableEq, Repr

/-- `supervisor.Submit`'s context attachment (src/unnamed/part_001
lines 298-317), restricted to its name fields. -/
def submitCtxAttachments (supNameFQ name : String) : CtxAttachmentsModel :=
  { taskNameShort := name, taskNameFull := submitNameFQ supNameFQ name }

/-! ## Helper lemmas -/

/-- Pair a report with its recorded `results` entry. -/
def reportEntry (r : ReportMsg) : Nat × Option GoErr := (r.task, r.result)

theorem perm_erase_head {α : Type} [DecidableEq α] {a : α} {l1 l2 : List α}
    (h : l1.Perm (a :: l2)) : (l1.erase a).Perm l2 := by
  have h2 := h.erase a
  rwa [List.erase_cons_head] at h2

/-- The drain loop records every remaining report, in arrival order,
and terminates exactly because the remaining reports cover the
`awaiting` set (one report per awaited task). -/
theorem fjDrain_perm (post : List ReportMsg) :
    ∀ (aw : List Nat) (res : List (Nat × Option GoErr)),
    aw.Perm (post.map ReportMsg.task) →
    fjDrain post aw res = some (res ++ post.map reportEntry) := by
  induction post with
  | nil =>
    intro aw res h
    have haw : aw = [] := h.eq_nil
    subst haw
    simp [fjDrain]
  | cons p ps ih =>
    intro aw res h
    have hne : aw.isEmpty = false := by
      cases aw with
      | nil =>
        have := h.length_eq
        simp at this
      | cons x xs => rfl
    rw [fjDrain, hne]
    simp only [Bool.false_eq_true, if_false]
    have hperm2 : (aw.erase p.task).Perm (ps.map ReportMsg.task) :=
      perm_erase_head (by simpa using h)
    rw [ih (aw.erase p.task) (res ++ [(p.task, p.result)]) hperm2]
    simp [reportEntry]

/-- The watch loop consumes the all-nil prefix of the arrival order and
breaks at the first non-nil report, having recorded exactly the
consumed reports; what is still awaited is exactly what has not yet
reported. -/
theorem fjWatch_to_first_err (e : GoErr) :
    ∀ (pre : List ReportMsg) (r : ReportMsg) (post : List ReportMsg)
      (aw : List Nat) (res : List (Nat × Option GoErr)),
    (∀ x ∈ pre, x.result = none) → r.result = some e →
    aw.Perm ((pre ++ r :: post).map ReportMsg.task) →
    ∃ aw2, fjWatch (pre ++ r :: post).length (pre ++ r :: post) aw res
        = some (aw2, res ++ (pre ++ [r]).map reportEntry, some e, post)
      ∧ aw2.Perm (post.map ReportMsg.task) := by
  intro pre
  induction pre with
  | nil =>
    intro r post aw res _ hr hperm
    refine ⟨aw.erase r.task, ?_, ?_⟩
    · simp only [List.nil_append, List.length_cons]
      rw [fjWatch, hr]
      simp [reportEntry, hr]
    · exact perm_erase_head (by simpa using hperm)
  | cons x pre2 ih =>
    intro r post aw res hpre hr hperm
    have hx : x.result = none := hpre x (List.mem_cons_self x pre2)
    have hperm2 : (aw.erase x.task).Perm ((pre2 ++ r :: post).map ReportMsg.task) :=
      perm_erase_head (by simpa using hperm)
    obtain ⟨aw2, hwatch, hp2⟩ :=
      ih r post (aw.erase x.task) (res ++ [(x.task, x.result)])
        (fun y hy => hpre y (List.mem_cons_of_mem x hy)) hr hperm2
    refine ⟨aw2, ?_, hp2⟩
    simp only [List.cons_append, List.length_cons]
    rw [fjWatch, hx]
    rw [hx] at hwatch
    rw [hwatch]
    simp [reportEntry, hx]

/-- `_run_recvChild` never moves the phase back to NotStarted. -/
theorem runRecvChild_phase (reactor : GoErr → Reaction) (s : SupSt) (c : ChildDone)
    (h : s.phase ≠ .notStarted) :
    (runRecvChild reactor s c).1.phase ≠ .notStarted := by
  unfold runRecvChild
  cases c.err with
  | none =>
    dsimp only
    split
    · simp
    · exact h
  | some e =>
    dsimp only
    cases reactor e <;> dsimp only
    · split <;> simp
    · split
      · simp
      · exact h
    · simp

/-- `_winddown_recvChild` never moves the phase back to NotStarted. -/
theorem winddownRecvChild_phase (reactor : GoErr → Reaction) (s : SupSt) (c : ChildDone)
    (h : s.phase ≠ .notStarted) :
    (winddownRecvChild reactor s c).1.phase ≠ .notStarted := by
  unfold winddownRecvChild
  cases c.err with
  | none =>
    dsimp only
    split
    · simp
    · exact h
  | some e =>
    dsimp only
    cases reactor e <;> dsimp only
    · split
      · simp
      · exact h
    · split
      · simp
      · exact h
    · simp

/-- The Running loop preserves "the phase left NotStarted". -/
theorem supRunLoop_phase (reactor : GoErr → Reaction) (dones : List ChildDone) :
    ∀ (s : SupSt) (phase : SupPhase) (err : Option GoErr) (s2 : SupSt)
      (p2 : SupPhase) (e2 : Option GoErr) (rem : List ChildDone),
    supRunLoop reactor dones s phase err = some (s2, p2, e2, rem) →
    s.phase ≠ .notStarted → s2.phase ≠ .notStarted := by
  induction dones with
  | nil =>
    intro s phase err s2 p2 e2 rem h hs
    rw [supRunLoop] at h
    split at h
    · simp at h
    · simp only [Option.some.injEq] at h
      obtain ⟨rfl, -, -, -⟩ := h
      exact hs
  | cons c rest ih =>
    intro s phase err s2 p2 e2 rem h hs
    rw [supRunLoop] at h
    split at h
    · exact ih _ _ _ _ _ _ _ h (runRecvChild_phase reactor s c hs)
    · simp only [Option.some.injEq] at h
      obtain ⟨rfl, -, -, -⟩ := h
      exact hs

/-- The WindingDown loop preserves "the phase left NotStarted". -/
theorem supWinddownLoop_phase (reactor : GoErr → Reaction) (dones : List ChildDone) :
    ∀ (s : SupSt) (phase : SupPhase) (err : Option GoErr) (s2 : SupSt)
      (p2 : SupPhase) (e2 : Option GoErr) (rem : List ChildDone),
    supWinddownLoop reactor dones s phase err = some (s2, p2, e2, rem) →
    s.phase ≠ .notStarted → s2.phase ≠ .notStarted := by
  induction dones with
  | nil =>
    intro s phase err s2 p2 e2 rem h hs
    rw [supWinddownLoop] at h
    split at h
    · simp at h
    · simp only [Option.some.injEq] at h
      obtain ⟨rfl, -, -, -⟩ := h
      exact hs
  | cons c rest ih =>
    intro s phase err s2 p2 e2 rem h hs
    rw [supWinddownLoop] at h
    split at h
    · exact ih _ _ _ _ _ _ _ h (winddownRecvChild_phase reactor s c hs)
    · simp only [Option.some.injEq] at h
      obtain ⟨rfl, -, -, -⟩ := h
      exact hs

/-- Evaluation of `_run_recvChild` under the default reactor for an
erroring child: the map entry is removed and the phase moves to Halted
(map emptied) or WindingDown (siblings remain), carrying the child's
error. -/
theorem runRecvChild_error_default (s : SupSt) (c : ChildDone) (e : GoErr)
    (hc : c.err = some e) :
    runRecvChild (fun _ => Reaction.error) s c
      = if (s.knownTasks.erase c.name).isEmpty then
          ({ s with knownTasks := s.knownTasks.erase c.name, phase := .halted },
            .halted, some e)
        else
          ({ s with knownTasks := s.knownTasks.erase c.name, phase := .windingDown },
            .windingDown, some e) := by
  unfold runRecvChild
  rw [hc]

/-- Evaluation of `_run_recvChild` for a nil-error child while
siblings remain: quiet continue in Running. -/
theorem runRecvChild_nil_nonempty (reactor : GoErr → Reaction) (s : SupSt)
    (c : ChildDone) (hc : c.err = none)
    (hne : (s.knownTasks.erase c.name).isEmpty = false) :
    runRecvChild reactor s c
      = ({ s with knownTasks := s.knownTasks.erase c.name }, .running, none) := by
  unfold runRecvChild
  rw [hc]
  dsimp only
  rw [if_neg (by simp [hne])]

/-- Under the default reactor, the WindingDown loop consumes the
remaining completions (which cover the remaining live tasks exactly)
and terminates in Halted with nothing left over. -/
theorem supWinddownLoop_total :
    ∀ (post : List ChildDone) (s : SupSt) (err0 : Option GoErr),
    s.knownTasks.Perm (post.map ChildDone.name) → post ≠ [] →
    ∃ s3 e3, supWinddownLoop (fun _ => Reaction.error) post s .windingDown err0
        = some (s3, .halted, e3, []) := by
  intro post
  induction post with
  | nil =>
    intro s err0 _ hne
    exact absurd rfl hne
  | cons c rest ih =>
    intro s err0 hperm _
    simp only [List.map_cons] at hperm
    have hpm : (s.knownTasks.erase c.name).Perm (rest.map ChildDone.name) :=
      perm_erase_head hperm
    rw [supWinddownLoop, if_pos rfl]
    dsimp only
    by_cases hrest : rest = []
    · subst hrest
      have hempty : (s.knownTasks.erase c.name).isEmpty = true := by
        simp [hpm.eq_nil]
      cases hc : c.err with
      | none =>
        have hrecv : winddownRecvChild (fun _ => Reaction.error) s c
            = ({ s with knownTasks := s.knownTasks.erase c.name, phase := .halted },
                .halted, none) := by
          unfold winddownRecvChild
          rw [hc]
          dsimp only
          rw [if_pos hempty]
        rw [hrecv]
        exact ⟨_, _, by rw [supWinddownLoop]; rfl⟩
      | some e2 =>
        have hrecv : winddownRecvChild (fun _ => Reaction.error) s c
            = ({ s with knownTasks := s.knownTasks.erase c.name, phase := .halted },
                .halted, some e2) := by
          unfold winddownRecvChild
          rw [hc]
          dsimp only
          rw [if_pos hempty]
        rw [hrecv]
        exact ⟨_, _, by rw [supWinddownLoop]; rfl⟩
    · have hne2 : (s.knownTasks.erase c.name).isEmpty = false := by
        rw [List.isEmpty_eq_false_iff_exists_mem]
        cases hmap : s.knownTasks.erase c.name with
        | nil =>
          rw [hmap] at hpm
          have : rest.map ChildDone.name = [] := hpm.symm.eq_nil
          exact absurd (List.map_eq_nil_iff.mp this) hrest
        | cons x xs => exact ⟨x, by simp⟩
      cases hc : c.err with
      | none =>
        have hrecv : winddownRecvChild (fun _ => Reaction.error) s c
            = ({ s with knownTasks := s.knownTasks.erase c.name },
                .windingDown, none) := by
          unfold winddownRecvChild
          rw [hc]
          dsimp only
          rw [if_neg (by simp [hne2])]
        rw [hrecv]
        exact ih _ none hpm hrest
      | some e2 =>
        have hrecv : winddownRecvChild (fun _ => Reaction.error) s c
            = ({ s with knownTasks := s.knownTasks.erase c.name },
                .windingDown, some e2) := by
          unfold winddownRecvChild
          rw [hc]
          dsimp only
          rw [if_neg (by simp [hne2])]
        rw [hrecv]
        exact ih _ (some e2) hpm hrest

/-- Under the default reactor, the Running loop consumes the all-nil
prefix of the arrival order and exits at the first erroring child with
that child's error, in WindingDown if siblings remain and in Halted if
the map just emptied; what is still tracked is exactly what has not
yet reported. -/
theorem supRunLoop_first_err (e : GoErr) :
    ∀ (pre : List ChildDone) (c : ChildDone) (post : List ChildDone)
      (s : SupSt) (err0 : Option GoErr),
    (∀ x ∈ pre, x.err = none) → c.err = some e →
    s.knownTasks.Perm ((pre ++ c :: post).map ChildDone.name) →
    ∃ s2 p2, supRunLoop (fun _ => Reaction.error) (pre ++ c :: post) s .running err0
        = some (s2, p2, some e, post)
      ∧ s2.knownTasks.Perm (post.map ChildDone.name)
      ∧ ((p2 = .windingDown ∧ post ≠ []) ∨ (p2 = .halted ∧ post = [])) := by
  intro pre
  induction pre with
  | nil =>
    intro c post s err0 _ hc hperm
    simp only [List.nil_append, List.map_cons] at hperm
    have hpm : (s.knownTasks.erase c.name).Perm (post.map ChildDone.name) :=
      perm_erase_head hperm
    rw [supRunLoop.eq_def]
    simp only [List.nil_append]
    by_cases hpost : post = []
    · subst hpost
      have hrecv : runRecvChild (fun _ => Reaction.error) s c
          = ({ s with knownTasks := s.knownTasks.erase c.name, phase := .halted },
              .halted, some e) := by
        rw [runRecvChild_error_default s c e hc, if_pos (by simp [hpm.eq_nil])]
      rw [hrecv]
      exact ⟨{ s with knownTasks := s.knownTasks.erase c.name, phase := .halted },
        .halted, by rw [supRunLoop.eq_def]; simp, by simp [hpm.eq_nil], Or.inr ⟨rfl, rfl⟩⟩
    · have hne2 : (s.knownTasks.erase c.name).isEmpty = false := by
        rw [List.isEmpty_eq_false_iff_exists_mem]
        cases hmap : s.knownTasks.erase c.name with
        | nil =>
          rw [hmap] at hpm
          have : post.map ChildDone.name = [] := hpm.symm.eq_nil
          exact absurd (List.map_eq_nil_iff.mp this) hpost
        | cons x xs => exact ⟨x, by simp⟩
      have hrecv : runRecvChild (fun _ => Reaction.error) s c
          = ({ s with knownTasks := s.knownTasks.erase c.name, phase := .windingDown },
              .windingDown, some e) := by
        rw [runRecvChild_error_default s c e hc, if_neg (by rw [hne2]; simp)]
      rw [hrecv]
      exact ⟨{ s with knownTasks := s.knownTasks.erase c.name, phase := .windingDown },
        .windingDown, by rw [supRunLoop.eq_def]; simp, by simpa using hpm, Or.inl ⟨rfl, hpost⟩⟩
  | cons x pre2 ih =>
    intro c post s err0 hpre hc hperm
    have hx : x.err = none := hpre x (List.mem_cons_self x pre2)
    simp only [List.cons_append, List.map_cons] at hperm
    have hpm : (s.knownTasks.erase x.name).Perm ((pre2 ++ c :: post).map ChildDone.name) :=
      perm_erase_head hperm
    have hne2 : (s.knownTasks.erase x.name).isEmpty = false := by
      rw [List.isEmpty_eq_false_iff_exists_mem]
      cases hmap : s.knownTasks.erase x.name with
      | nil =>
        rw [hmap] at hpm
        have h0 : (pre2 ++ c :: post).map ChildDone.name = [] := hpm.symm.eq_nil
        have h1 : (pre2 ++ c :: post) = [] := List.map_eq_nil_iff.mp h0
        simp at h1
      | cons y ys => exact ⟨y, by simp⟩
    rw [List.cons_append, supRunLoop.eq_def]
    dsimp only
    rw [runRecvChild_nil_nonempty (fun _ => Reaction.error) s x hx hne2]
    exact ih c post _ none (fun y hy => hpre y (List.mem_cons_of_mem x hy)) hc hpm

/-- A name returned by the selection loop never collides with the
live-task map: the loop only returns a proposal that is absent from
`known`. -/
theorem selectNameFrom_ok_fresh (nss : String → String → Nat → String)
    (known : List String) (r : String) :
    ∀ (d attempts : Nat) (attempted n : String), 101 ≤ attempts + d →
    selectNameFrom nss known r attempted attempts = .ok n →
    known.contains n = false := by
  intro d
  induction d with
  | zero =>
    intro attempts attempted n hd h
    rw [selectNameFrom] at h
    split at h
    · rw [if_pos (by omega)] at h
      simp at h
    next hc =>
      simp only [Except.ok.injEq] at h
      rw [← h]
      simpa using hc
  | succ d ih =>
    intro attempts attempted n hd h
    rw [selectNameFrom] at h
    split at h
    · split at h
      · simp at h
      · exact ih (attempts + 1) _ n (by omega) h
    next hc =>
      simp only [Except.ok.injEq] at h
      rw [← h]
      simpa using hc

/-- If every proposal the strategy can make collides, the selection
loop exhausts its attempt ceiling and panics. -/
theorem selectNameFrom_allcollide (nss : String → String → Nat → String)
    (known : List String) (r : String)
    (h : ∀ a k, known.contains (nss r a k) = true) :
    ∀ (d attempts : Nat) (attempted : String), attempts + d = 100 →
    selectNameFrom nss known r attempted attempts
      = .error "your name selection strategy is broken" := by
  intro d
  induction d with
  | zero =>
    intro attempts attempted hd
    rw [selectNameFrom]
    rw [if_pos (by simpa using h attempted attempts)]
    rw [if_pos (by omega)]
  | succ d ih =>
    intro attempts attempted hd
    rw [selectNameFrom]
    rw [if_pos (by simpa using h attempted attempts)]
    rw [if_neg (by omega)]
    exact ih (attempts + 1) _ (by omega)

/-- `_halting` never launches anything: its outcome's launched set is
the state's. -/
theorem streamHalting_launched (evs : List StreamEv) (st : StreamSt) (o : StreamOutcome)
    (h : streamHalting evs st = some o) : o.launched = st.launched := by
  unfold streamHalting at h
  split at h
  · simp at h
  · simp only [Option.some.injEq] at h
    rw [← h]

/-- `_collecting` never launches anything: once the generator is
closed, the launched set never grows again, whatever events follow. -/
theorem streamCollecting_launched (evs : List StreamEv) :
    ∀ (st : StreamSt) (o : StreamOutcome),
    streamCollecting evs st = some o → o.launched = st.launched := by
  induction evs with
  | nil =>
    intro st o h
    rw [streamCollecting.eq_def] at h
    dsimp only at h
    split at h
    · simp only [Option.some.injEq] at h
      rw [← h]
    · simp at h
  | cons ev rest ih =>
    intro st o h
    rw [streamCollecting.eq_def] at h
    dsimp only at h
    split at h
    · simp only [Option.some.injEq] at h
      rw [← h]
    · match ev with
      | .report r =>
        dsimp only at h
        split at h
        · have h2 := streamHalting_launched rest _ o h
          simpa using h2
        · have h2 := ih _ o h
          simpa using h2
      | .parentDone e =>
        dsimp only at h
        have h2 := streamHalting_launched rest _ o h
        simpa using h2
      | .newTask id =>
        dsimp only at h
        exact ih _ o h
      | .genClosed =>
        dsimp only at h
        exact ih _ o h

/-- Admitting a prefix of generator yields appends each task to the
awaiting and launched sets, in order. -/
theorem streamRunning_admitsFirst (admits : List Nat) :
    ∀ (evs : List StreamEv) (st : StreamSt),
    streamRunning (admits.map StreamEv.newTask ++ evs) st
      = streamRunning evs { st with awaiting := st.awaiting ++ admits,
                                    launched := st.launched ++ admits } := by
  induction admits with
  | nil => intro evs st; simp
  | cons a as ih =>
    intro evs st
    simp only [List.map_cons, List.cons_append]
    rw [streamRunning.eq_def]
    dsimp only
    rw [ih evs _]
    simp [List.append_assoc]

/-- After generator closure, if every outstanding task reports a nil
result (one report each, any order), `_collecting` records them all and
halts happily with the accumulated `firstErr` (nil on the happy path),
without ever invoking the group cancel. -/
theorem streamCollecting_nil_reports (rsPost : List ReportMsg) :
    ∀ (st : StreamSt), (∀ x ∈ rsPost, x.result = none) →
    st.awaiting.Perm (rsPost.map ReportMsg.task) →
    streamCollecting (rsPost.map StreamEv.report) st
      = some { result := st.firstErr, results := st.results ++ rsPost.map reportEntry,
               launched := st.launched, cancelled := false } := by
  induction rsPost with
  | nil =>
    intro st _ hperm
    have haw : st.awaiting = [] := hperm.eq_nil
    rw [streamCollecting.eq_def]
    dsimp only
    rw [if_pos (by simp [haw])]
    simp
  | cons p ps ih =>
    intro st hnil hperm
    have hne : st.awaiting.isEmpty = false := by
      cases haw : st.awaiting with
      | nil =>
        rw [haw] at hperm
        have := hperm.length_eq
        simp at this
      | cons x xs => rfl
    have hp : p.result = none := hnil p (List.mem_cons_self p ps)
    rw [streamCollecting.eq_def]
    dsimp only
    rw [hne]
    simp only [Bool.false_eq_true, if_false, List.map_cons, hp]
    rw [ih _ (fun y hy => hnil y (List.mem_cons_of_mem p hy))
        (perm_erase_head (by simpa using hperm))]
    simp [reportEntry, hp]

/-- The halting drain loop blocks forever if some awaited task never
reports. -/
theorem streamDrain_stuck (t : Nat) :
    ∀ (evs : List StreamEv) (aw : List Nat) (res : List (Nat × Option GoErr)),
    t ∈ aw → (∀ r : ReportMsg, StreamEv.report r ∈ evs → r.task ≠ t) →
    streamDrain evs aw res = none := by
  intro evs
  induction evs with
  | nil =>
    intro aw res hmem _
    rw [streamDrain.eq_def]
    dsimp only
    rw [if_neg (by simp [List.isEmpty_iff]; intro h2; rw [h2] at hmem; simp at hmem)]
  | cons ev rest ih =>
    intro aw res hmem hno
    rw [streamDrain.eq_def]
    dsimp only
    rw [if_neg (by simp [List.isEmpty_iff]; intro h2; rw [h2] at hmem; simp at hmem)]
    match ev with
    | .report r =>
      have hr : r.task ≠ t := hno r (List.mem_cons_self _ _)
      exact ih (aw.erase r.task) _
        ((List.mem_erase_of_ne (Ne.symm hr)).mpr hmem)
        (fun r2 h2 => hno r2 (List.mem_cons_of_mem _ h2))
    | .newTask id =>
      exact ih aw res hmem (fun r2 h2 => hno r2 (List.mem_cons_of_mem _ h2))
    | .genClosed =>
      exact ih aw res hmem (fun r2 h2 => hno r2 (List.mem_cons_of_mem _ h2))
    | .parentDone e =>
      exact ih aw res hmem (fun r2 h2 => hno r2 (List.mem_cons_of_mem _ h2))

/-- `_halting` blocks forever if some awaited task never reports. -/
theorem streamHalting_stuck (t : Nat) (evs : List StreamEv) (st : StreamSt)
    (hmem : t ∈ st.awaiting)
    (hno : ∀ r : ReportMsg, StreamEv.report r ∈ evs → r.task ≠ t) :
    streamHalting evs st = none := by
  unfold streamHalting
  rw [streamDrain_stuck t evs st.awaiting st.results hmem hno]

/-- `_collecting` blocks forever (never returns) if some awaited task
never reports. -/
theorem streamCollecting_stuck (t : Nat) :
    ∀ (evs : List StreamEv) (st : StreamSt), t ∈ st.awaiting →
    (∀ r : ReportMsg, StreamEv.report r ∈ evs → r.task ≠ t) →
    streamCollecting evs st = none := by
  intro evs
  induction evs with
  | nil =>
    intro st hmem _
    rw [streamCollecting.eq_def]
    dsimp only
    rw [if_neg (by simp [List.isEmpty_iff]; intro h2; rw [h2] at hmem; simp at hmem)]
  | cons ev rest ih =>
    intro st hmem hno
    rw [streamCollecting.eq_def]
    dsimp only
    rw [if_neg (by simp [List.isEmpty_iff]; intro h2; rw [h2] at hmem; simp at hmem)]
    match ev with
    | .report r =>
      have hr : r.task ≠ t := hno r (List.mem_cons_self _ _)
      have hmem2 : t ∈ st.awaiting.erase r.task :=
        (List.mem_erase_of_ne (Ne.symm hr)).mpr hmem
      have hno2 : ∀ r2 : ReportMsg, StreamEv.report r2 ∈ rest → r2.task ≠ t :=
        fun r2 h2 => hno r2 (List.mem_cons_of_mem _ h2)
      simp only
      split
      · exact streamHalting_stuck t rest _ hmem2 hno2
      · exact ih _ hmem2 hno2
    | .parentDone e =>
      exact streamHalting_stuck t rest _ hmem
        (fun r2 h2 => hno r2 (List.mem_cons_of_mem _ h2))
    | .newTask id =>
      exact ih _ hmem (fun r2 h2 => hno r2 (List.mem_cons_of_mem _ h2))
    | .genClosed =>
      exact ih _ hmem (fun r2 h2 => hno r2 (List.mem_cons_of_mem _ h2))

/-- Any report list whose first non-nil result is `e` splits into an
all-nil prefix, the first erroring report, and the rest. -/
theorem firstNonNilResult_split (rs : List ReportMsg) (e : GoErr) :
    firstNonNilResult rs = some e →
    ∃ pre r post, rs = pre ++ r :: post
      ∧ (∀ x ∈ pre, x.result = none) ∧ r.result = some e := by
  induction rs with
  | nil => intro h; simp [firstNonNilResult] at h
  | cons r rs ih =>
    intro h
    cases hr : r.result with
    | some e2 =>
      rw [firstNonNilResult, hr] at h
      refine ⟨[], r, rs, rfl, by simp, ?_⟩
      rw [hr]
      exact h
    | none =>
      rw [firstNonNilResult, hr] at h
      have h2 : firstNonNilResult rs = some e := h
      obtain ⟨pre, rr, post, heq, hpre, hrr⟩ := ih h2
      refine ⟨r :: pre, rr, post, by rw [heq, List.cons_append], ?_, hrr⟩
      intro y hy
      rcases List.mem_cons.mp hy with h1 | h2
      · rw [h1]; exact hr
      · exact hpre y h2

/-- Any completion arrival order whose first non-nil child error is
`e` splits into an all-nil prefix, the first erroring child, and the
rest. -/
theorem firstNonNilChildErr_split (ds : List ChildDone) (e : GoErr) :
    firstNonNilChildErr ds = some e →
    ∃ pre c post, ds = pre ++ c :: post
      ∧ (∀ x ∈ pre, x.err = none) ∧ c.err = some e := by
  induction ds with
  | nil => intro h; simp [firstNonNilChildErr] at h
  | cons c cs ih =>
    intro h
    cases hc : c.err with
    | some e2 =>
      rw [firstNonNilChildErr, hc] at h
      refine ⟨[], c, cs, rfl, by simp, ?_⟩
      rw [hc]
      exact h
    | none =>
      rw [firstNonNilChildErr, hc] at h
      have h2 : firstNonNilChildErr cs = some e := h
      obtain ⟨pre, cc, post, heq, hpre, hcc⟩ := ih h2
      refine ⟨c :: pre, cc, post, by rw [heq, List.cons_append], ?_, hcc⟩
      intro y hy
      rcases List.mem_cons.mp hy with h1 | h2
      · rw [h1]; exact hc
      · exact hpre y h2

/-- Under the default reactor, a consolidated supervisor whose live
tasks are covered exactly by the completion arrival order returns the
first non-nil child error in that order as its aggregate result. -/
theorem supRun_first_error (names : List String) (dones : List ChildDone)
    (roe : Bool) (e : GoErr)
    (hperm : names.Perm (dones.map ChildDone.name))
    (hfirst : firstNonNilChildErr dones = some e) :
    ∃ out : SupOutcome,
      supRun (fun _ => Reaction.error) ⟨.notStarted, names, roe⟩ dones
          = .ok (some out)
        ∧ out.result = some e := by
  obtain ⟨pre, c, post, heq, hpre, hc⟩ := firstNonNilChildErr_split dones e hfirst
  subst heq
  have hnames_ne : names.isEmpty = false := by
    rw [List.isEmpty_eq_false_iff_exists_mem]
    cases hn : names with
    | nil =>
      rw [hn] at hperm
      have h0 : (pre ++ c :: post).map ChildDone.name = [] := hperm.symm.eq_nil
      have h1 : (pre ++ c :: post) = [] := List.map_eq_nil_iff.mp h0
      simp at h1
    | cons y ys => exact ⟨y, by simp⟩
  have hstart : runStart ⟨.notStarted, names, roe⟩
      = .ok (⟨.running, names, roe⟩, .running) := by
    unfold runStart
    rw [if_pos rfl, if_neg (by rw [hnames_ne]; simp)]
  obtain ⟨s2, p2, hloop, hperm2, hp2⟩ :=
    supRunLoop_first_err e pre c post ⟨.running, names, roe⟩ none hpre hc
      (by simpa using hperm)
  unfold supRun
  rw [hstart]
  dsimp only
  rw [hloop]
  dsimp only
  rcases hp2 with ⟨rfl, hpost⟩ | ⟨rfl, rfl⟩
  · rw [if_neg (by simp)]
    obtain ⟨s3, e3, hwinddown⟩ := supWinddownLoop_total post s2 none hperm2 hpost
    rw [hwinddown]
    exact ⟨_, rfl, rfl⟩
  · rw [if_neg (by simp)]
    have hwd : supWinddownLoop (fun _ => Reaction.error) [] s2 .halted none
        = some (s2, .halted, none, []) := by
      rw [supWinddownLoop.eq_def]
      simp
    rw [hwd]
    exact ⟨_, rfl, rfl⟩

/-- A resolved promise state is left untouched by any further sequence
of `resolve` attempts (each attempt's CAS fails before any write). -/
theorem applyResolves_of_resolved {V : Type} (vs : List V) (s : PromiseState V)
    (h : promiseIsResolved s = true) : applyResolves vs s = s := by
  induction vs with
  | nil => rfl
  | cons v vs ih =>
    have hc : s.ctrl = 0 := by
      simpa [promiseIsResolved] using h
    simp [applyResolves, promiseResolve, hc]
    exact ih

end Sup

namespace Sup

/-! ## Claims -/

/-- C10: `siftError` is idempotent on already-classified errors: with
no panic recovered, a returned error that is already an `*ErrChild` is
passed through unchanged — the same wrapper, same `WasPanic` flag — so
nested supervisors keep the original provenance flag. -/
theorem siftError_passes_errChild_through (e : GoErr) (p : Bool) :
    siftError (some (.child e p)) none = some (.child e p) := rfl

/-- C4 counterexample: the claim says a normally-returned non-nil error
always yields an `ErrChild` whose panic flag is `false`; but a returned
error that is already a panic-flagged `*ErrChild` (as produced by a
nested supervisor) is passed through by `siftError` with its flag still
`true`. -/
theorem siftError_returned_error_keeps_panic_flag :
    siftError (some (.child (.basic "boom") true)) none
        = some (.child (.basic "boom") true)
    ∧ isPanicFlagged (siftError (some (.child (.basic "boom") true)) none) = true := by
  exact ⟨rfl, rfl⟩

/-- C4 (amended): a recovered panic with any value yields a
panic-flagged `ErrChild`; a normally-returned non-nil error that is not
already an `*ErrChild` yields an `ErrChild` with the flag clear, while
one that is already an `*ErrChild` is passed through unchanged; a nil
return with no panic yields a nil report. -/
theorem siftError_classification (retErr : Option GoErr) (pv : PanicVal) (e : GoErr)
    (he : isErrChild e = false) :
    isPanicFlagged (siftError retErr (some pv)) = true
    ∧ siftError (some e) none = some (.child e false)
    ∧ (∀ e2 : GoErr, isErrChild e2 = true → siftError (some e2) none = some e2)
    ∧ siftError none none = none := by
  refine ⟨?_, ?_, ?_, rfl⟩
  · cases pv <;> rfl
  · cases e with
    | basic msg => rfl
    | child e2 p => simp [isErrChild] at he
  · intro e2 he2
    cases e2 with
    | basic msg => simp [isErrChild] at he2
    | child e3 p => rfl

/-- C4 witness: a concrete instantiation of the amended
classification. -/
theorem siftError_classification_witness :
    isPanicFlagged (siftError none (some (.nonErrVal "42"))) = true
    ∧ siftError (some (.basic "boom")) none = some (.child (.basic "boom") false)
    ∧ (∀ e2 : GoErr, isErrChild e2 = true → siftError (some e2) none = some e2)
    ∧ siftError none none = none :=
  siftError_classification (some (.basic "boom")) (.nonErrVal "42") (.basic "boom") rfl

/-- C5: the first `resolve` on a fresh promise succeeds; any later
`resolve` on the resolved state panics; `IsResolved` is `false` before
resolution, becomes `true` at the first successful resolve, and stays
`true` under any further sequence of resolve attempts (including the
next attempt after any such sequence, which still panics). -/
theorem promise_single_assignment {V : Type} (v w : V) (vs : List V) :
    promiseIsResolved (newPromiseState V) = false
    ∧ promiseResolve v (newPromiseState V) = .ok ⟨0, some v⟩
    ∧ promiseIsResolved (⟨0, some v⟩ : PromiseState V) = true
    ∧ promiseResolve w (⟨0, some v⟩ : PromiseState V)
        = .error "promise is already resolved, cannot resolve again"
    ∧ promiseIsResolved (applyResolves vs (⟨0, some v⟩ : PromiseState V)) = true
    ∧ promiseResolve w (applyResolves vs (⟨0, some v⟩ : PromiseState V))
        = .error "promise is already resolved, cannot resolve again" := by
  have hres : promiseIsResolved (⟨0, some v⟩ : PromiseState V) = true := rfl
  have happ := applyResolves_of_resolved vs (⟨0, some v⟩ : PromiseState V) hres
  refine ⟨rfl, rfl, rfl, rfl, ?_, ?_⟩
  · rw [happ]
    exact hres
  · rw [happ]
    rfl

/-- C9 counterexample: the consolidated supervisor's `Submit`
(src/unnamed/part_001 line 301) builds the fully-qualified name it
attaches to the child's context with a dot join, not a slash join:
under a supervisor whose own fully-qualified name is `"main"`, a task
submitted as `"one"` gets `TaskNameFull = "main.one"`, which differs
from the slash-joined `"main/one"` the claim requires of every
supervisor-launched task. -/
theorem submit_attaches_dot_joined_name :
    (submitCtxAttachments "main" "one").taskNameFull = "main.one"
    ∧ (submitCtxAttachments "main" "one").taskNameFull ≠ pathJoin "main" "one" := by
  constructor
  · rfl
  · decide

/-- C9 (amended): tasks launched through the engines' `childLaunch`
(src/engineShared.go) get a fully-qualified path equal to the ancestor
path joined with the task's short name by `"/"` (the short name alone
when the ancestor path is empty); concretely, tasks `"one"`, `"two"`,
`"three"` under a fork-join group `"main"` launched at the root get
paths `"main/one"`, `"main/two"`, `"main/three"`.  The consolidated
supervisor's `Submit` (src/unnamed/part_001) instead attaches a
dot-joined fully-qualified name, the supervisor's own fully-qualified
name ++ `"."` ++ the resolved short name. -/
theorem childLaunch_path (groupCtx : CtxModel) (name : String)
    (hne : ctxTaskPath groupCtx ≠ "") :
    ctxTaskPath (childLaunchCtx groupCtx name) = ctxTaskPath groupCtx ++ "/" ++ name
    ∧ (∀ ctx2 : CtxModel, ∀ nm : String,
        ctxTaskPath (childLaunchCtx ctx2 nm) = pathJoin (ctxTaskPath ctx2) nm)
    ∧ ctxTaskPath (childLaunchCtx (childLaunchCtx ⟨none⟩ "main") "one") = "main/one"
    ∧ ctxTaskPath (childLaunchCtx (childLaunchCtx ⟨none⟩ "main") "two") = "main/two"
    ∧ ctxTaskPath (childLaunchCtx (childLaunchCtx ⟨none⟩ "main") "three") = "main/three"
    ∧ (∀ supFQ nm : String,
        (submitCtxAttachments supFQ nm).taskNameFull = supFQ ++ "." ++ nm) := by
  refine ⟨?_, ?_, rfl, rfl, rfl, ?_⟩
  · have h1 : ctxTaskPath (childLaunchCtx groupCtx name)
        = pathJoin (ctxTaskPath groupCtx) name := rfl
    rw [h1]
    unfold pathJoin
    rw [if_neg hne]
  · intro ctx2 nm
    rfl
  · intro supFQ nm
    rfl

/-- C9 witness: concrete instantiation with a non-empty ancestor
path. -/
theorem childLaunch_path_witness :
    ctxTaskPath (childLaunchCtx (childLaunchCtx ⟨none⟩ "main") "one")
      = ctxTaskPath (childLaunchCtx ⟨none⟩ "main") ++ "/" ++ "one" :=
  (childLaunch_path (childLaunchCtx ⟨none⟩ "main") "one" (by decide)).1

/-- C3: the code contradicts the claim.  When the reactor returns
Ignore for a child's error, return-on-empty is on, and the live-task
map has just become empty, `_run_recvChild` stores
`SupervisorPhase_WindingDown` (not `Halted`), so `Run` proceeds into
the winddown receive loop with zero live children and blocks forever
on `childCompletion` instead of halting and returning nil.  (The
analogous `_winddown_recvChild` Ignore branch and the nil-error branch
both store `Halted` here, and the documentation says the supervisor
halts immediately.)  The run is modelled to completion: it never
returns (`.ok none`). -/
theorem ignore_on_empty_does_not_halt :
    runRecvChild (fun _ => .ignore) ⟨.running, ["t1"], true⟩ ⟨"t1", some (.basic "boom")⟩
      = (⟨.windingDown, [], true⟩, .windingDown, none)
    ∧ supRun (fun _ => .ignore) ⟨.notStarted, ["t1"], true⟩
        [⟨"t1", some (.basic "boom")⟩] = .ok none := by
  constructor
  · rfl
  · rfl

/-- In any fork-join run in which some child reports a non-nil error
(each task reporting exactly once, in any arrival order, parent not
cancelled), `Run` returns exactly the first non-nil error in arrival
order; every report — including later errors — is recorded in the
per-task `results` map. -/
theorem fj_first_error_dominates (tasks : List Nat) (reports : List ReportMsg) (e : GoErr)
    (hperm : tasks.Perm (reports.map ReportMsg.task))
    (hfirst : firstNonNilResult reports = some e) :
    fjRun tasks reports
      = some { result := some e,
               results := reports.map reportEntry,
               cancelled := true, phase := .halt } := by
  obtain ⟨pre, r, post, heq, hpre, hr⟩ := firstNonNilResult_split reports e hfirst
  subst heq
  have hlen : tasks.length = (pre ++ r :: post).length := by
    simpa using hperm.length_eq
  obtain ⟨aw2, hwatch, hperm2⟩ :=
    fjWatch_to_first_err e pre r post tasks [] hpre hr hperm
  unfold fjRun
  rw [hlen, hwatch]
  simp only [List.nil_append]
  rw [fjDrain_perm post aw2 ((pre ++ [r]).map reportEntry) hperm2]
  simp [List.map_append]

/-- C1: in every supervisor run in which some child reports a non-nil
error (each live task reporting exactly once, in any arrival order,
parent not cancelled, default error reactor), the aggregate error
returned by `Run` is exactly the first non-nil error in arrival order
on the report channel — for the fork-join engine (`superviseFJ.Run`),
whose `results` map additionally records every report including the
later errors, and for the consolidated supervisor (`supervisor.Run`,
src/unnamed/part_001); later errors are never the aggregate result. -/
theorem first_error_dominates (tasks : List Nat) (reports : List ReportMsg)
    (names : List String) (dones : List ChildDone) (roe : Bool) (e eSup : GoErr)
    (hperm : tasks.Perm (reports.map ReportMsg.task))
    (hfirst : firstNonNilResult reports = some e)
    (hperm2 : names.Perm (dones.map ChildDone.name))
    (hfirst2 : firstNonNilChildErr dones = some eSup) :
    fjRun tasks reports
      = some { result := some e,
               results := reports.map reportEntry,
               cancelled := true, phase := .halt }
    ∧ ∃ out : SupOutcome,
        supRun (fun _ => Reaction.error) ⟨.notStarted, names, roe⟩ dones
            = .ok (some out)
          ∧ out.result = some eSup :=
  ⟨fj_first_error_dominates tasks reports e hperm hfirst,
   supRun_first_error names dones roe eSup hperm2 hfirst2⟩

/-- C1 witness: in the fork-join engine two tasks error and the
earlier arrival wins while both land in the results map; in the
consolidated supervisor two children error and the first arrival is
the aggregate result. -/
theorem first_error_dominates_witness :
    fjRun [1, 2] [⟨2, some (.basic "e")⟩, ⟨1, some (.basic "f")⟩]
      = some { result := some (.basic "e"),
               results := [(2, some (.basic "e")), (1, some (.basic "f"))],
               cancelled := true, phase := .halt }
    ∧ ∃ out : SupOutcome,
        supRun (fun _ => Reaction.error)
            ⟨.notStarted, ["t1", "t2"], true⟩
            [⟨"t2", some (.basic "boom")⟩, ⟨"t1", some (.basic "later")⟩]
            = .ok (some out)
          ∧ out.result = some (.basic "boom") :=
  first_error_dominates [1, 2] [⟨2, some (.basic "e")⟩, ⟨1, some (.basic "f")⟩]
    ["t1", "t2"] [⟨"t2", some (.basic "boom")⟩, ⟨"t1", some (.basic "later")⟩]
    true (.basic "e") (.basic "boom") (by decide) rfl (by decide) rfl

/-- C2 counterexample: a fork-join run on the happy path (every task
reported a nil error) leaves the watch loop and `Run` returns without
ever invoking the group cancel function, contradicting the claim that
cancellation fan-out precedes every `Run` return. -/
theorem fj_happy_path_returns_without_cancel :
    fjRun [1] [⟨1, none⟩]
      = some { result := none, results := [(1, none)], cancelled := false,
               phase := .halt } := rfl

/-- C2 (amended): the consolidated supervisor (`supervisor.Run`,
src/unnamed/part_001) invokes `cancelChildren` before every return,
including the happy path; the fork-join engine
(`superviseFJ.Run`, src/engineForkJoin.go) invokes `groupCancel`
exactly when the watch loop is left unhappily (a child errored) — on
the happy path it returns nil without fanning out cancellation. -/
theorem cancellation_fanout_before_return (reactor : GoErr → Reaction) (s0 : SupSt)
    (dones : List ChildDone) (out : SupOutcome) (tasks : List Nat)
    (reports : List ReportMsg) (o : FJOutcome)
    (h : supRun reactor s0 dones = .ok (some out))
    (h2 : fjRun tasks reports = some o) :
    out.cancelled = true ∧ o.cancelled = o.result.isSome := by
  constructor
  · unfold supRun at h
    split at h
    · simp at h
    · split at h
      · simp at h
      · split at h
        · simp only [Except.ok.injEq, Option.some.injEq] at h
          rw [← h]
        · split at h
          · simp at h
          · simp only [Except.ok.injEq, Option.some.injEq] at h
            rw [← h]
  · unfold fjRun at h2
    split at h2
    · simp at h2
    · split at h2
      · simp only [Option.some.injEq] at h2
        rw [← h2]
        rfl
      · split at h2
        · simp at h2
        · simp only [Option.some.injEq] at h2
          rw [← h2]
          rfl

/-- C2 witness: concrete supervisor and fork-join runs with an erroring
child; both fan out cancellation before returning. -/
theorem cancellation_fanout_before_return_witness :
    ({ result := none, finalState := ⟨.halted, [], true⟩, cancelled := true }
        : SupOutcome).cancelled = true
    ∧ ({ result := some (.basic "e"), results := [(1, some (.basic "e"))],
         cancelled := true, phase := .halt } : FJOutcome).cancelled
        = (some (GoErr.basic "e")).isSome :=
  cancellation_fanout_before_return (fun _ => .error) ⟨.notStarted, ["t1"], true⟩
    [⟨"t1", none⟩] { result := none, finalState := ⟨.halted, [], true⟩, cancelled := true }
    [1] [⟨1, some (.basic "e")⟩]
    { result := some (.basic "e"), results := [(1, some (.basic "e"))],
      cancelled := true, phase := .halt }
    rfl rfl

/-- C6: `Run` is invocable at most once.  A completed invocation
implies the supervisor started in NotStarted; the final state's phase
never returns to NotStarted, so a second (sequential) invocation hits
the failed phase CAS in `_run_start` and panics; likewise the
fork-join engine's Run panics whenever its phase has left
`phase_init`.  (Concurrent second invocations are serialized by the
CAS / the mutex, so exactly one of them observes NotStarted; the model
covers the loser's panic as the non-NotStarted case.) -/
theorem run_invocable_at_most_once (reactor : GoErr → Reaction) (s0 : SupSt)
    (dones : List ChildDone) (out : SupOutcome)
    (h : supRun reactor s0 dones = .ok (some out)) :
    s0.phase = .notStarted
    ∧ out.finalState.phase ≠ .notStarted
    ∧ (∀ dones2, supRun reactor out.finalState dones2
        = .error "supervisor can only be Run() once!")
    ∧ (∀ p, p ≠ EnginePhase.init →
        fjRunStart p = .error "supervisor can only be Run() once!") := by
  have hstart : s0.phase = .notStarted := by
    unfold supRun at h
    split at h
    next heq =>
      simp at h
    next s1 phase1 heq =>
      unfold runStart at heq
      split at heq
      · assumption
      · simp at heq
  have hfinal : out.finalState.phase ≠ .notStarted := by
    unfold supRun at h
    split at h
    · simp at h
    next s1 phase1 heq =>
      have hs1 : s1.phase ≠ .notStarted := by
        unfold runStart at heq
        rw [if_pos hstart] at heq
        split at heq <;>
        · simp only [Except.ok.injEq, Prod.mk.injEq] at heq
          rw [← heq.1]
          simp
      split at h
      · simp at h
      next s2 phase2 err rem heq2 =>
        have hs2 : s2.phase ≠ .notStarted :=
          supRunLoop_phase reactor dones s1 phase1 none s2 phase2 err rem heq2 hs1
        split at h
        · simp only [Except.ok.injEq, Option.some.injEq] at h
          rw [← h]
          exact hs2
        · split at h
          · simp at h
          next s3 p3 err2 rem2 heq3 =>
            have hs3 : s3.phase ≠ .notStarted :=
              supWinddownLoop_phase reactor rem s2 phase2 none s3 p3 err2 rem2 heq3 hs2
            simp only [Except.ok.injEq, Option.some.injEq] at h
            rw [← h]
            exact hs3
  refine ⟨hstart, hfinal, ?_, ?_⟩
  · intro dones2
    unfold supRun runStart
    rw [if_neg hfinal]
  · intro p hp
    unfold fjRunStart
    rw [if_neg hp]

/-- C7: under the default strategy, a requested name that does not yet
collide is resolved unmodified; a requested name colliding with an
existing task resolves to the previous attempt with the literal
suffix `"+1"` appended (so two submissions of the same name get the
two distinct names `r` and `r ++ "+1"`); the loop only ever returns a
non-colliding name; and a strategy whose proposals always collide
exhausts the attempt ceiling of 100 and panics. -/
theorem default_name_selection (r : String) (known : List String)
    (nss : String → String → Nat → String) :
    (known.contains r = false →
      selectName nameSelectionStrategyDefault known r = .ok r)
    ∧ (known.contains r = true → known.contains (r ++ "+1") = false →
      selectName nameSelectionStrategyDefault known r = .ok (r ++ "+1"))
    ∧ (∀ n, selectName nss known r = .ok n → known.contains n = false)
    ∧ ((∀ a k, known.contains (nss r a k) = true) →
      selectName nss known r = .error "your name selection strategy is broken") := by
  refine ⟨?_, ?_, ?_, ?_⟩
  · intro hfree
    unfold selectName
    rw [selectNameFrom]
    simp only [nameSelectionStrategyDefault, gt_iff_lt, Nat.lt_irrefl, if_false]
    rw [if_neg (by simpa using hfree)]
  · intro hcoll hfree
    unfold selectName
    rw [selectNameFrom]
    simp only [nameSelectionStrategyDefault, gt_iff_lt, Nat.lt_irrefl, if_false]
    rw [if_pos (by simpa using hcoll)]
    rw [if_neg (by omega)]
    rw [selectNameFrom]
    simp only [nameSelectionStrategyDefault, gt_iff_lt, Nat.lt_irrefl, if_false]
    rw [if_neg (by simpa using hfree)]
    norm_num
  · intro n h
    exact selectNameFrom_ok_fresh nss known r 101 0 r n (by omega) h
  · intro h
    exact selectNameFrom_allcollide nss known r h 100 0 r rfl

/-- C7 witness: concrete collisions — requesting `"a"` on an empty
map yields `"a"`; requesting `"a"` when `"a"` is taken yields
`"a+1"`; an always-colliding strategy is a fatal error. -/
theorem default_name_selection_witness :
    selectName nameSelectionStrategyDefault [] "a" = .ok "a"
    ∧ selectName nameSelectionStrategyDefault ["a"] "a" = .ok ("a" ++ "+1")
    ∧ selectName (fun _ _ _ => "a") ["a"] "a"
        = .error "your name selection strategy is broken" :=
  ⟨(default_name_selection "a" [] (fun _ _ _ => "a")).1 rfl,
   (default_name_selection "a" ["a"] (fun _ _ _ => "a")).2.1 rfl rfl,
   (default_name_selection "a" ["a"] (fun _ _ _ => "a")).2.2.2 (fun _ _ => rfl)⟩

/-- C8: for the stream supervisor — (i) when the generator yields
`admits` and then closes, and afterwards every admitted task reports a
nil result exactly once (in any order), `Run` returns nil having
launched exactly the admitted tasks and recorded exactly their
reports; (ii) if some admitted task never reports, `Run` never
returns, so a completed happy run happens exactly after every admitted
task has reported; (iii) after the generator closes, the launched set
can never grow again, whatever events follow. -/
theorem stream_generator_closure (admits : List Nat) (rsPost : List ReportMsg)
    (t : Nat) (evs2 : List StreamEv) (st : StreamSt) (o : StreamOutcome)
    (hnil : ∀ x ∈ rsPost, x.result = none) :
    (admits.Perm (rsPost.map ReportMsg.task) →
      streamRun (admits.map StreamEv.newTask
          ++ StreamEv.genClosed :: rsPost.map StreamEv.report)
        = some { result := none, results := rsPost.map reportEntry,
                 launched := admits, cancelled := false })
    ∧ (t ∈ admits → (∀ r : ReportMsg, StreamEv.report r ∈ evs2 → r.task ≠ t) →
      streamRun (admits.map StreamEv.newTask ++ StreamEv.genClosed :: evs2) = none)
    ∧ (streamCollecting evs2 st = some o → o.launched = st.launched) := by
  refine ⟨?_, ?_, streamCollecting_launched evs2 st o⟩
  · intro hperm
    unfold streamRun
    rw [streamRunning_admitsFirst admits (StreamEv.genClosed :: rsPost.map StreamEv.report) _]
    rw [streamRunning.eq_def]
    dsimp only
    rw [streamCollecting_nil_reports rsPost _ hnil (by simpa using hperm)]
    simp
  · intro hmem hno
    unfold streamRun
    rw [streamRunning_admitsFirst admits (StreamEv.genClosed :: evs2) _]
    rw [streamRunning.eq_def]
    dsimp only
    exact streamCollecting_stuck t evs2 _ (by simpa using hmem) hno

/-- C8 witness: two tasks admitted then the generator closes; with
both reports delivered Run returns nil; with no report for task 1 it
never returns; a collecting state's launched set is preserved. -/
theorem stream_generator_closure_witness :
    (streamRun ([1, 2].map StreamEv.newTask
        ++ StreamEv.genClosed :: [(⟨2, none⟩ : ReportMsg), ⟨1, none⟩].map StreamEv.report)
      = some { result := none, results := [(2, none), (1, none)],
               launched := [1, 2], cancelled := false })
    ∧ streamRun ([1, 2].map StreamEv.newTask ++ StreamEv.genClosed :: []) = none
    ∧ (⟨none, [], [5], false⟩ : StreamOutcome).launched
        = (⟨[], [], none, [5]⟩ : StreamSt).launched := by
  have h := stream_generator_closure [1, 2] [⟨2, none⟩, ⟨1, none⟩] 1 []
    ⟨[], [], none, [5]⟩ ⟨none, [], [5], false⟩ (by intro x hx; fin_cases hx <;> rfl)
  exact ⟨h.1 (by decide), h.2.1 (by decide) (by intro r h2; simp at h2), h.2.2 rfl⟩

/-- C6 witness: a concrete completed run, after which a second Run
panics. -/
theorem run_invocable_at_most_once_witness :
    (⟨.notStarted, ["t1"], true⟩ : SupSt).phase = .notStarted
    ∧ ({ result := none, finalState := ⟨.halted, [], true⟩, cancelled := true }
        : SupOutcome).finalState.phase ≠ .notStarted
    ∧ (∀ dones2, supRun (fun _ => .error)
        ({ result := none, finalState := ⟨.halted, [], true⟩, cancelled := true }
          : SupOutcome).finalState dones2
        = .error "supervisor can only be Run() once!")
    ∧ (∀ p, p ≠ EnginePhase.init →
        fjRunStart p = .error "supervisor can only be Run() once!") :=
  run_invocable_at_most_once (fun _ => .error) ⟨.notStarted, ["t1"], true⟩
    [⟨"t1", none⟩]
    { result := none, finalState := ⟨.halted, [], true⟩, cancelled := true }
    rfl

end Sup
